import Mathlib

/-!
# Verification of the openclaw-installer core logic

Shallow embedding of the two core components of the repository:

* `deepMerge` and `patchOpenClawConfig` from `src/config-patch.ts`
  (structural configuration merge with backup-before-write), and
* the savings tracker embedded as the `SAVINGS_TRACKER_MJS` template in
  `src/config-patch.ts` (`scanSessionLogs`, `computeCosts`, and the
  checkpoint update performed by its main section).

JavaScript objects are modelled as association lists with distinct keys
(`Object.entries` order); JS numbers are modelled as rationals (`ℚ`) where
cost arithmetic matters and integers (`ℤ`) for timestamps and token counts.
-/

set_option autoImplicit false

namespace OpenClaw

/-- A JSON value, as produced by `JSON.parse`.  Objects are association
lists in entry order; a well-formed JS object has no duplicate keys. -/
inductive JVal where
  | null
  | bool (b : Bool)
  | num (q : ℚ)
  | str (s : String)
  | arr (elems : List JVal)
  | obj (fields : List (String × JVal))
deriving Repr

/-- First-occurrence key lookup in a string-keyed map (JS `o[k]`, with a
missing property — `undefined` — as `none`). -/
def getKey {α : Type} : List (String × α) → String → Option α
  | [], _ => none
  | (k', v) :: rest, k => if k' = k then some v else getKey rest k

/-- JS property assignment `o[k] = v`: replaces the value at an existing key
in place, otherwise appends the new entry. -/
def setKey {α : Type} : List (String × α) → String → α → List (String × α)
  | [], k, v => [(k, v)]
  | (k', v') :: rest, k, v =>
      if k' = k then (k, v) :: rest else (k', v') :: setKey rest k v

/-- The test `x !== null && typeof x === "object" && !Array.isArray(x)`
used by `deepMerge` (config-patch.ts lines 46-53): true exactly for plain
objects.  A missing key (`undefined`) fails `typeof x === "object"`. -/
def isPlainObj : Option JVal → Bool
  | some (JVal.obj _) => true
  | _ => false

/-- `deepMerge(target, source)` from config-patch.ts lines 39-63.

Starts from a shallow copy of `target` (`{ ...target }`) and walks the
entries of `source`; when both the existing value and the incoming value
are plain objects they are merged recursively, otherwise the incoming
value is assigned over the existing one. -/
def deepMerge : List (String × JVal) → List (String × JVal) → List (String × JVal)
  | target, [] => target
  | target, (k, v) :: rest =>
      match getKey target k, v with
      | some (JVal.obj e), JVal.obj s =>
          deepMerge (setKey target k (JVal.obj (deepMerge e s))) rest
      | _, _ => deepMerge (setKey target k v) rest
termination_by _ source => sizeOf source
decreasing_by all_goals (simp; try omega)

/-!
## The savings tracker (`SAVINGS_TRACKER_MJS` template, config-patch.ts lines 173-363)

`scanSessionLogs(sinceMs)` walks `~/.openclaw/agents/<agent>/sessions/*.jsonl`
and sums token usage of records at or after the cutoff.  A session-log line
that is blank, fails `JSON.parse`, or has a falsy `entry.message?.usage` is
skipped; such lines are modelled as `none`.  A decodable usage record is
modelled by the fields the script reads: `entry.message.timestamp` and the
four token fields of `entry.message.usage`.
-/

/-- Value of a token field (`usage.input`, `usage.input_tokens`, ...).
`absent` is a missing or `null` field (nullish, so `??` passes over it);
`num` is a JSON number; `boolv` is a JSON boolean, which is not nullish
(so `??` keeps it) and which JS `+=` coerces to 0/1. -/
inductive TField where
  | absent
  | num (n : ℤ)
  | boolv (b : Bool)
deriving Repr, DecidableEq

/-- The amount `usage.input ?? usage.input_tokens ?? 0` adds to the numeric
accumulator via `+=`: the first non-nullish value, numerically coerced. -/
def tokVal : TField → TField → ℤ
  | TField.num n, _ => n
  | TField.boolv b, _ => if b then 1 else 0
  | TField.absent, TField.num n => n
  | TField.absent, TField.boolv b => if b then 1 else 0
  | TField.absent, TField.absent => 0

/-- Value of `entry.message.timestamp`: a missing or `null` field
(`?? 0` turns it into `0`), a JSON number, or a non-numeric value whose
JS numeric coercion is `NaN` (e.g. the string "-", an object), for which
every `<` comparison is false. -/
inductive TsField where
  | tsAbsent
  | tsNum (n : ℤ)
  | tsNan
deriving Repr, DecidableEq

/-- The test `ts < sinceMs` (after `?? 0`), which decides skipping a record:
an absent timestamp compares as `0`, a `NaN` coercion compares false. -/
def tsBefore (ts : TsField) (c : ℤ) : Bool :=
  match ts with
  | TsField.tsAbsent => decide (0 < c)
  | TsField.tsNum n => decide (n < c)
  | TsField.tsNan => false

/-- One decodable usage record: the fields of a parsed session-log line
that `scanSessionLogs` reads. -/
structure Rec where
  ts : TsField
  input : TField
  input_tokens : TField
  output : TField
  output_tokens : TField
deriving Repr, DecidableEq

/-- `inputTokens += usage.input ?? usage.input_tokens ?? 0` for one record. -/
def recInput (r : Rec) : ℤ := tokVal r.input r.input_tokens

/-- `outputTokens += usage.output ?? usage.output_tokens ?? 0` for one record. -/
def recOutput (r : Rec) : ℤ := tokVal r.output r.output_tokens

/-- A session-log file: its `mtimeMs` and its decoded lines (`none` for a
blank, malformed, or usage-less line). -/
structure SFile where
  mtime : ℤ
  lines : List (Option Rec)
deriving Repr, DecidableEq

/-- Contribution of one line to `(inputTokens, outputTokens)`: zero for a
skipped line (blank / malformed / no usage / timestamp before the cutoff),
the record's token values otherwise. -/
def lineTokens (c : ℤ) : Option Rec → ℤ × ℤ
  | none => (0, 0)
  | some r => if tsBefore r.ts c then (0, 0) else (recInput r, recOutput r)

/-- Scan of one file: skipped entirely when `stat.mtimeMs < sinceMs`,
otherwise its lines' contributions are accumulated (the script adds them
one by one into the shared accumulators; summation is associative). -/
def scanFile (c : ℤ) (f : SFile) : ℤ × ℤ :=
  if f.mtime < c then (0, 0) else (f.lines.map (lineTokens c)).sum

/-- One entry of the agents directory: whether its `sessions` subdirectory
exists (`fs.existsSync(sessionsDir)`), and that directory's files by name. -/
structure AgentDir where
  hasSessions : Bool
  files : List (String × SFile)
deriving Repr, DecidableEq

/-- JS `s.endsWith(suffix)`, on the character lists of the strings. -/
def strEndsWith (s suffix : String) : Bool := suffix.data.isSuffixOf s.data

/-- Tokens contributed by one agent directory: nothing when the `sessions`
subdirectory is missing; otherwise the files whose names end in `.jsonl`
(`readdirSync(...).filter((f) => f.endsWith(".jsonl"))`) are scanned. -/
def agentTokens (c : ℤ) (a : AgentDir) : ℤ × ℤ :=
  if a.hasSessions then
    ((a.files.filter (fun nf => strEndsWith nf.1 ".jsonl")).map (fun nf => scanFile c nf.2)).sum
  else (0, 0)

/-- `scanSessionLogs(sinceMs)` over the agents directory (config-patch.ts
lines 226-265).  A missing `AGENTS_DIR` returns zero immediately, which
coincides with scanning an empty list of agent directories. -/
def scanSessionLogs (agents : List AgentDir) (sinceMs : ℤ) : ℤ × ℤ :=
  (agents.map (agentTokens sinceMs)).sum

/-!
## Cost math (`computeCosts`, config-patch.ts lines 269-282)

JS number arithmetic is modelled over `ℚ`.
-/

/-- One pricing table (`{ inputCostPerMillion, outputCostPerMillion }`). -/
structure Pricing where
  inputCostPerMillion : ℚ
  outputCostPerMillion : ℚ
deriving Repr, DecidableEq

/-- The tracker's config: `baseline` and `sansa` pricing tables. -/
structure SansaConfig where
  baseline : Pricing
  sansa : Pricing
deriving Repr, DecidableEq

/-- The report produced by `computeCosts`. -/
structure CostReport where
  baselineTotal : ℚ
  sansaTotal : ℚ
  saved : ℚ
  inputTokens : ℚ
  outputTokens : ℚ
deriving Repr, DecidableEq

/-- `computeCosts(tokens, config)`: per-million cost for each direction
under each table, their sums, and the difference `saved`. -/
def computeCosts (tokens : ℚ × ℚ) (config : SansaConfig) : CostReport :=
  let baseInput := tokens.1 / 1000000 * config.baseline.inputCostPerMillion
  let baseOutput := tokens.2 / 1000000 * config.baseline.outputCostPerMillion
  let sansaInput := tokens.1 / 1000000 * config.sansa.inputCostPerMillion
  let sansaOutput := tokens.2 / 1000000 * config.sansa.outputCostPerMillion
  { baselineTotal := baseInput + baseOutput
    sansaTotal := sansaInput + sansaOutput
    saved := (baseInput + baseOutput) - (sansaInput + sansaOutput)
    inputTokens := tokens.1
    outputTokens := tokens.2 }

/-!
## Checkpoint state (tracker main section, config-patch.ts lines 300-337)
-/

/-- The persisted tracker state (`state.json`), with the zero defaults
`loadState` substitutes when the file is missing or unparseable. -/
structure TrackerState where
  lastReportedAt : ℤ
  lifetimeInput : ℤ
  lifetimeOutput : ℤ
deriving Repr, DecidableEq

/-- The checkpoint update of the main section:
`state.lifetimeInput += tokens.inputTokens`,
`state.lifetimeOutput += tokens.outputTokens`,
`state.lastReportedAt = Date.now()`. -/
def checkpoint (st : TrackerState) (tokens : ℤ × ℤ) (now : ℤ) : TrackerState :=
  { lastReportedAt := now
    lifetimeInput := st.lifetimeInput + tokens.1
    lifetimeOutput := st.lifetimeOutput + tokens.2 }

/-- `const sinceMs = state.lastReportedAt || 0` — on an integer this only
maps the falsy value `0` to `0`, i.e. it is the identity. -/
def sinceOf (st : TrackerState) : ℤ :=
  if st.lastReportedAt = 0 then 0 else st.lastReportedAt

/-- A sequence of scan-then-checkpoint cycles, each given the agents
directory contents it observes and its `Date.now()`. -/
def runCycles : TrackerState → List (List AgentDir × ℤ) → TrackerState
  | st, [] => st
  | st, (data, now) :: rest =>
      runCycles (checkpoint st (scanSessionLogs data (sinceOf st)) now) rest

/-!
## `patchOpenClawConfig` (config-patch.ts lines 76-106)

The file system is modelled as a flat path-to-content map.  `fs.existsSync`
is `(getFile fs p).isSome`, `fs.copyFileSync` and `fs.writeFileSync` are
`setFile`.  `JSON.parse` (inside `readJson`) and `JSON.stringify` (inside
`writeJson`) are parameters of the model: the backup behaviour under
verification does not depend on them.  `SANSA_MODEL_ENTRY` and
`CONFIG_PATH` come from `types.ts`, which is not among the embedded
sources, so they are parameters as well.
-/

/-- A flat file system: association of paths to file contents. -/
abbrev FS := List (String × String)

/-- File lookup (`fs.readFileSync`, or `fs.existsSync` via `Option.isSome`). -/
def getFile (fs : FS) (p : String) : Option String := getKey fs p

/-- File creation or overwrite (`fs.writeFileSync` / `fs.copyFileSync`). -/
def setFile (fs : FS) (p : String) (content : String) : FS := setKey fs p content

/-- The `sansaPatch` literal of `patchOpenClawConfig` (lines 79-97), with
the `SANSA_MODEL_ENTRY` constant from the non-embedded `types.ts` as a
parameter. -/
def sansaPatch (apiKey : String) (modelEntry : JVal) : List (String × JVal) :=
  [("models", JVal.obj
      [("mode", JVal.str "merge"),
       ("providers", JVal.obj
         [("sansa-ai", JVal.obj
           [("baseUrl", JVal.str "https://api.sansaml.com/v1"),
            ("apiKey", JVal.str apiKey),
            ("api", JVal.str "openai-completions"),
            ("models", JVal.arr [modelEntry])])])]),
   ("agents", JVal.obj
      [("defaults", JVal.obj
        [("model", JVal.obj [("primary", JVal.str "sansa-ai/sansa-auto")]),
         ("models", JVal.obj
           [("sansa-ai/sansa-auto", JVal.obj [("alias", JVal.str "Sansa")])])])])]

/-- `patchOpenClawConfig(apiKey)` as a file-system transformer:
read and parse the existing config (missing or unparseable file ↦ `{}`),
deep-merge the Sansa patch into it, copy the original to
`<path>.bak.<Date.now()>` when the file exists, then write the rendered
merged document (with the trailing newline `writeJson` appends). -/
def patchOpenClawConfig
    (parse : String → Option (List (String × JVal)))
    (render : List (String × JVal) → String)
    (cfgPath apiKey : String) (modelEntry : JVal) (now : ℤ) (fs : FS) : FS :=
  let existing := ((getFile fs cfgPath).bind parse).getD []
  let merged := deepMerge existing (sansaPatch apiKey modelEntry)
  let fs1 :=
    match getFile fs cfgPath with
    | some content => setFile fs (cfgPath ++ ".bak." ++ toString now) content
    | none => fs
  setFile fs1 cfgPath (render merged ++ "\n")

/-!
## Association-list lemmas
-/

theorem getKey_setKey_self {α : Type} (l : List (String × α)) (k : String) (v : α) :
    getKey (setKey l k v) k = some v := by
  induction l with
  | nil => simp [getKey, setKey]
  | cons p rest ih =>
      obtain ⟨k', v'⟩ := p
      by_cases h : k' = k <;> simp [getKey, setKey, h, ih]

theorem getKey_setKey_ne {α : Type} (l : List (String × α)) (k k' : String) (v : α)
    (h : k' ≠ k) : getKey (setKey l k v) k' = getKey l k' := by
  induction l with
  | nil => simp [getKey, setKey, Ne.symm h]
  | cons p rest ih =>
      obtain ⟨k₀, v₀⟩ := p
      by_cases h0 : k₀ = k
      · subst h0
        simp [getKey, setKey, Ne.symm h]
      · simp [getKey, setKey, h0, ih]

theorem getKey_eq_none_of_not_mem {α : Type} {l : List (String × α)} {k : String}
    (h : k ∉ l.map Prod.fst) : getKey l k = none := by
  induction l with
  | nil => rfl
  | cons p rest ih =>
      obtain ⟨k₀, v₀⟩ := p
      simp only [List.map_cons, List.mem_cons, not_or] at h
      simp [getKey, Ne.symm h.1, ih h.2]

/-!
## `deepMerge` unfolding and key-lookup lemmas
-/

/-- The body of one step of `deepMerge`: the assignment `out[key] = ...`
performed for one entry `(k, v)` of the source object. -/
def mergeStep (t : List (String × JVal)) (k : String) (v : JVal) :
    List (String × JVal) :=
  match getKey t k, v with
  | some (JVal.obj e), JVal.obj s => setKey t k (JVal.obj (deepMerge e s))
  | _, _ => setKey t k v

theorem deepMerge_nil (t : List (String × JVal)) : deepMerge t [] = t := by
  rw [deepMerge]

theorem deepMerge_cons (t : List (String × JVal)) (k : String) (v : JVal)
    (rest : List (String × JVal)) :
    deepMerge t ((k, v) :: rest) = deepMerge (mergeStep t k v) rest := by
  unfold mergeStep
  rw [deepMerge.eq_def]
  simp only []
  rcases hg : getKey t k with _ | w
  · rfl
  · cases w <;> try rfl
    cases v <;> rfl

theorem getKey_mergeStep_self (t : List (String × JVal)) (k : String) (v : JVal) :
    getKey (mergeStep t k v) k =
      some (match getKey t k, v with
            | some (JVal.obj e), JVal.obj s => JVal.obj (deepMerge e s)
            | _, _ => v) := by
  unfold mergeStep
  rcases hg : getKey t k with _ | w
  · exact getKey_setKey_self _ _ _
  · cases w <;> try exact getKey_setKey_self _ _ _
    cases v <;> exact getKey_setKey_self _ _ _

theorem getKey_mergeStep_ne (t : List (String × JVal)) (k : String) (v : JVal)
    (k' : String) (h : k' ≠ k) : getKey (mergeStep t k v) k' = getKey t k' := by
  unfold mergeStep
  rcases hg : getKey t k with _ | w
  · exact getKey_setKey_ne _ _ _ _ h
  · cases w <;> try exact getKey_setKey_ne _ _ _ _ h
    cases v <;> exact getKey_setKey_ne _ _ _ _ h

theorem getKey_deepMerge_of_none (s : List (String × JVal)) :
    ∀ (t : List (String × JVal)) (k : String), getKey s k = none →
      getKey (deepMerge t s) k = getKey t k := by
  induction s with
  | nil => intro t k _; rw [deepMerge_nil]
  | cons p rest ih =>
      obtain ⟨k₀, v₀⟩ := p
      intro t k hk
      have hne : k₀ ≠ k := by
        intro he
        rw [getKey, if_pos he] at hk
        cases hk
      have hrest : getKey rest k = none := by
        rw [getKey, if_neg hne] at hk
        exact hk
      rw [deepMerge_cons, ih _ _ hrest, getKey_mergeStep_ne _ _ _ _ (Ne.symm hne)]

theorem getKey_deepMerge (s : List (String × JVal)) :
    ∀ (t : List (String × JVal)) (k : String) (v : JVal),
      (s.map Prod.fst).Nodup → getKey s k = some v →
      getKey (deepMerge t s) k =
        some (match getKey t k, v with
              | some (JVal.obj e), JVal.obj sv => JVal.obj (deepMerge e sv)
              | _, _ => v) := by
  induction s with
  | nil => intro t k v _ hv; cases hv
  | cons p rest ih =>
      obtain ⟨k₀, v₀⟩ := p
      intro t k v hnd hv
      simp only [List.map_cons, List.nodup_cons] at hnd
      rw [deepMerge_cons]
      by_cases hk : k₀ = k
      · subst hk
        have hv₀ : v₀ = v := by
          rw [getKey, if_pos rfl] at hv
          exact Option.some_inj.mp hv
        subst hv₀
        have hrest : getKey rest k₀ = none := getKey_eq_none_of_not_mem hnd.1
        rw [getKey_deepMerge_of_none rest _ _ hrest, getKey_mergeStep_self]
      · have hrest : getKey rest k = some v := by
          rw [getKey, if_neg hk] at hv
          exact hv
        rw [ih (mergeStep t k₀ v₀) k v hnd.2 hrest,
          getKey_mergeStep_ne _ _ _ _ (Ne.symm hk)]

/-!
## Claim theorems for the configuration merge
-/

/-- Claim C2: for every target document, every patch document (a JS object,
hence with distinct keys), and every key of the patch: when both the
existing value at that key and the incoming value are non-null, non-array
key-value mappings, the merge result at that key is their recursive merge;
otherwise the result at that key is exactly the incoming patch value,
replacing the existing value wholesale (arrays are replaced, never
concatenated, and a patch scalar replaces a target mapping). -/
theorem deepMerge_key_semantics (t s : List (String × JVal)) (k : String) (v : JVal)
    (hnd : (s.map Prod.fst).Nodup) :
    getKey s k = some v →
    getKey (deepMerge t s) k =
      some (match getKey t k, v with
            | some (JVal.obj e), JVal.obj sv => JVal.obj (deepMerge e sv)
            | _, _ => v) :=
  fun hv => getKey_deepMerge s t k v hnd hv

/-- Witness for C2 at the spec's own example: the value at "a" in
`merge({a:[1,2]}, {a:[3]})` is `[3]` — the array is replaced, not
concatenated. -/
theorem deepMerge_key_semantics_witness :
    getKey (deepMerge [("a", JVal.arr [JVal.num 1, JVal.num 2])]
        [("a", JVal.arr [JVal.num 3])]) "a" = some (JVal.arr [JVal.num 3]) :=
  deepMerge_key_semantics _ _ "a" _ (by simp) rfl

/-- Claim C9: `deepMerge` (translated as a pure function: the TS code
builds its result from the shallow copy `{ ...target }` and a fresh object
at every recursion level, never writing to either argument) leaves every
key absent from the patch bound to exactly the value the target held, so
only keys appearing in the patch can differ between target and result. -/
theorem deepMerge_untouched_keys (t s : List (String × JVal)) (k : String)
    (h : getKey s k = none) : getKey (deepMerge t s) k = getKey t k :=
  getKey_deepMerge_of_none s t k h

/-- Witness for C9: a key only in the target keeps its value. -/
theorem deepMerge_untouched_keys_witness :
    getKey (deepMerge [("keep", JVal.num 1)] [("patched", JVal.num 2)]) "keep"
      = getKey [("keep", JVal.num 1)] "keep" :=
  deepMerge_untouched_keys _ _ "keep" rfl

/-!
## Scan lemmas
-/

theorem pair_zero : ((0, 0) : ℤ × ℤ) = 0 := rfl

/-- The effective numeric value of a timestamp field after `?? 0`:
`none` for a value that coerces to `NaN`. -/
def effTs : TsField → Option ℤ
  | TsField.tsAbsent => some 0
  | TsField.tsNum n => some n
  | TsField.tsNan => none

theorem tsBefore_of_effTs {ts : TsField} {n : ℤ} (h : effTs ts = some n) (c : ℤ) :
    tsBefore ts c = decide (n < c) := by
  cases ts <;> simp_all [effTs, tsBefore]

theorem tsBefore_of_nan {ts : TsField} (h : effTs ts = none) (c : ℤ) :
    tsBefore ts c = false := by
  cases ts <;> simp_all [effTs, tsBefore]

theorem scanFile_cons_none (c m : ℤ) (l1 l2 : List (Option Rec)) :
    scanFile c ⟨m, l1 ++ none :: l2⟩ = scanFile c ⟨m, l1 ++ l2⟩ := by
  by_cases hm : m < c <;>
    simp [scanFile, hm, lineTokens, pair_zero]

/-- Inserting a file-name that does not end in `.jsonl` leaves the filter
of `agentTokens` unchanged. -/
theorem agentTokens_skip_non_jsonl (c : ℤ) (hs : Bool)
    (fs1 fs2 : List (String × SFile)) (nm : String) (f : SFile)
    (h : strEndsWith nm ".jsonl" = false) :
    agentTokens c ⟨hs, fs1 ++ (nm, f) :: fs2⟩ = agentTokens c ⟨hs, fs1 ++ fs2⟩ := by
  simp [agentTokens, List.filter_append, List.filter_cons, h]

/-- Claim C7: an undecodable line interleaved among the lines of a record
file contributes nothing: the file scans to exactly the same totals as
with that line removed, and scanning a whole agents directory containing
that file is likewise unchanged — a malformed line never aborts the rest
of the file or the other files. -/
theorem scan_malformed_line_tolerance (c m : ℤ) (l1 l2 : List (Option Rec))
    (pre post : List AgentDir) (hs : Bool)
    (fs1 fs2 : List (String × SFile)) (nm : String) :
    scanFile c ⟨m, l1 ++ none :: l2⟩ = scanFile c ⟨m, l1 ++ l2⟩
    ∧ scanSessionLogs (pre ++ (⟨hs, fs1 ++ (nm, ⟨m, l1 ++ none :: l2⟩) :: fs2⟩ : AgentDir) :: post) c
        = scanSessionLogs (pre ++ (⟨hs, fs1 ++ (nm, ⟨m, l1 ++ l2⟩) :: fs2⟩ : AgentDir) :: post) c := by
  refine ⟨scanFile_cons_none c m l1 l2, ?_⟩
  simp only [scanSessionLogs, List.map_append, List.map_cons, List.sum_append,
    List.sum_cons]
  congr 2
  by_cases hj : strEndsWith nm ".jsonl" <;>
    simp [agentTokens, List.filter_append, List.filter_cons, hj,
      scanFile_cons_none c m l1 l2]

/-- Claim C10: only files whose names end in `.jsonl` inside an agent
directory's `sessions` subdirectory are read; a file with any other name
contributes nothing to the totals, whatever its contents. -/
theorem scan_ignores_non_jsonl (c : ℤ) (pre post : List AgentDir) (hs : Bool)
    (fs1 fs2 : List (String × SFile)) (nm : String) (f : SFile)
    (h : strEndsWith nm ".jsonl" = false) :
    scanSessionLogs (pre ++ (⟨hs, fs1 ++ (nm, f) :: fs2⟩ : AgentDir) :: post) c
      = scanSessionLogs (pre ++ (⟨hs, fs1 ++ fs2⟩ : AgentDir) :: post) c := by
  simp only [scanSessionLogs, List.map_append, List.map_cons, List.sum_append,
    List.sum_cons]
  congr 2
  exact agentTokens_skip_non_jsonl c hs fs1 fs2 nm f h

/-- Witness for C10: a `notes.txt` file holding a perfectly valid usage
record adds nothing to the scan. -/
theorem scan_ignores_non_jsonl_witness :
    scanSessionLogs
        [⟨true, [("notes.txt",
          ⟨50, [some ⟨TsField.tsNum 10, TField.num 3, TField.absent,
                      TField.num 4, TField.absent⟩]⟩)]⟩] 0
      = scanSessionLogs [(⟨true, []⟩ : AgentDir)] 0 :=
  scan_ignores_non_jsonl 0 [] [] true [] [] "notes.txt" _ (by decide)

theorem sum_append_cons (A B : List (ℤ × ℤ)) (x : ℤ × ℤ) :
    (A ++ x :: B).sum = (A ++ B).sum + x := by
  simp [List.sum_append, List.sum_cons]
  abel

/-- Claim C5 (amended): a decoded record is excluded from the sums exactly
when its effective timestamp — the numeric timestamp, with a missing or
`null` timestamp standing in as `0` via `?? 0` — is strictly before the
cutoff; a record whose timestamp is at or after the cutoff contributes its
token values, as does a record whose timestamp coerces to `NaN` (for which
`ts < sinceMs` is always false).  Hence a missing timestamp is
cutoff-excluded for every positive cutoff but included when the cutoff is
`0`, and a non-numeric timestamp is never excluded. -/
theorem scan_record_cutoff_semantics (c m : ℤ) (l1 l2 : List (Option Rec)) (r : Rec) :
    ((∃ n, effTs r.ts = some n ∧ n < c) →
      scanFile c ⟨m, l1 ++ some r :: l2⟩ = scanFile c ⟨m, l1 ++ l2⟩)
    ∧ (¬ m < c → (∀ n, effTs r.ts = some n → c ≤ n) →
      scanFile c ⟨m, l1 ++ some r :: l2⟩
        = scanFile c ⟨m, l1 ++ l2⟩ + (recInput r, recOutput r)) := by
  constructor
  · rintro ⟨n, hn, hlt⟩
    have hb : tsBefore r.ts c = true := by
      rw [tsBefore_of_effTs hn]
      simpa using hlt
    by_cases hm : m < c <;> simp [scanFile, hm, lineTokens, hb, pair_zero]
  · intro hm hts
    have hb : tsBefore r.ts c = false := by
      rcases he : effTs r.ts with _ | n
      · exact tsBefore_of_nan he c
      · rw [tsBefore_of_effTs he]
        simpa using not_lt.mpr (hts n he)
    simp only [scanFile, hm, if_neg, List.map_append, List.map_cons, lineTokens,
      hb, Bool.false_eq_true, if_false]
    exact sum_append_cons _ _ _

/-- Witness for C5: a record with timestamp equal to the cutoff is
included and contributes its token counts. -/
theorem scan_record_cutoff_semantics_witness :
    scanFile 5 ⟨10, [some ⟨TsField.tsNum 5, TField.num 3, TField.absent,
        TField.num 4, TField.absent⟩]⟩
      = scanFile 5 ⟨10, []⟩ + (3, 4) := by
  have h := (scan_record_cutoff_semantics 5 10 [] []
    ⟨TsField.tsNum 5, TField.num 3, TField.absent, TField.num 4, TField.absent⟩).2
    (by decide) (fun n hn => by simp [effTs] at hn; omega)
  simpa using h

/-- Counterexample to C5 as stated: the claim says a record with a missing
timestamp is cutoff-excluded for every cutoff, but with cutoff `0` the
`?? 0` default makes `ts < sinceMs` false and the record's 7 input tokens
are counted — a scan that excluded it would return `(0, 0)`. -/
theorem scan_missing_ts_counterexample :
    scanSessionLogs
        [⟨true, [("s.jsonl", ⟨5, [some ⟨TsField.tsAbsent, TField.num 7,
          TField.absent, TField.absent, TField.absent⟩]⟩)]⟩] 0 = (7, 0)
    ∧ ((7, 0) : ℤ × ℤ) ≠ (0, 0) := by
  constructor
  · decide
  · decide

/-- Counterexample to C6 as stated: the claim says a non-numeric token
field contributes exactly zero, but the code only defaults nullish values;
a boolean `usage.input` of `true` survives both `??` steps and `+=`
coerces it to `1`, so the scan returns `(1, 0)` where the claim requires
`(0, 0)`. -/
theorem scan_bool_token_contributes_one :
    scanSessionLogs
        [⟨true, [("s.jsonl", ⟨5, [some ⟨TsField.tsNum 3, TField.boolv true,
          TField.absent, TField.absent, TField.absent⟩]⟩)]⟩] 0 = (1, 0)
    ∧ ((1, 0) : ℤ × ℤ) ≠ (0, 0) := by
  constructor
  · decide
  · decide

/-!
## Cost-formula claim
-/

/-- Claim C8: `computeCosts` returns the per-million cost formula for both
tables, `saved` is exactly their difference (so it is negative whenever
the treated total exceeds the baseline total — no clamping), and the
spec's concrete vector (1M/1M tokens, baseline `{10, 5}`, treated
`{1.5, 6.0}`) yields baseline 15, treated 7.5, saved 7.5. -/
theorem computeCosts_spec (tokens : ℚ × ℚ) (config : SansaConfig) :
    (computeCosts tokens config).baselineTotal
        = tokens.1 / 1000000 * config.baseline.inputCostPerMillion
          + tokens.2 / 1000000 * config.baseline.outputCostPerMillion
    ∧ (computeCosts tokens config).sansaTotal
        = tokens.1 / 1000000 * config.sansa.inputCostPerMillion
          + tokens.2 / 1000000 * config.sansa.outputCostPerMillion
    ∧ (computeCosts tokens config).saved
        = (computeCosts tokens config).baselineTotal
          - (computeCosts tokens config).sansaTotal
    ∧ ((computeCosts tokens config).baselineTotal
          < (computeCosts tokens config).sansaTotal
        → (computeCosts tokens config).saved < 0)
    ∧ computeCosts (1000000, 1000000) ⟨⟨10, 5⟩, ⟨1.5, 6.0⟩⟩
        = ⟨15, 7.5, 7.5, 1000000, 1000000⟩ := by
  refine ⟨rfl, rfl, rfl, ?_, ?_⟩
  · intro h
    simpa [computeCosts] using sub_neg.mpr h
  · simp only [computeCosts, CostReport.mk.injEq]
    norm_num

/-- Witness for C8: a token mix where the treated table costs more than
the baseline table surfaces a negative `saved`. -/
theorem computeCosts_spec_witness :
    (computeCosts (0, 1000000) ⟨⟨10, 5⟩, ⟨1.5, 6.0⟩⟩).saved < 0 :=
  (computeCosts_spec (0, 1000000) ⟨⟨10, 5⟩, ⟨1.5, 6.0⟩⟩).2.2.2.1
    (by norm_num [computeCosts])

/-!
## Non-negativity of scans and checkpoint monotonicity
-/

/-- A token field is non-negative when it is not a negative number (the
data model of the spec: token counts are integers at least 0). -/
def tfNonneg : TField → Bool
  | TField.num n => decide (0 ≤ n)
  | _ => true

/-- All four token fields of a record are non-negative. -/
def recNonneg (r : Rec) : Bool :=
  tfNonneg r.input && tfNonneg r.input_tokens
    && tfNonneg r.output && tfNonneg r.output_tokens

/-- Every decodable record of the file has non-negative token fields. -/
def fileNonneg (f : SFile) : Bool :=
  f.lines.all fun l => (l.map recNonneg).getD true

/-- Every file of every agent directory satisfies `fileNonneg`. -/
def dataNonneg (agents : List AgentDir) : Bool :=
  agents.all fun a => a.files.all fun nf => fileNonneg nf.2

theorem tokVal_nonneg {a b : TField} (ha : tfNonneg a = true)
    (hb : tfNonneg b = true) : 0 ≤ tokVal a b := by
  cases a <;> cases b <;>
    simp_all [tfNonneg, tokVal] <;> split <;> omega

theorem lineTokens_nonneg {l : Option Rec} (h : (l.map recNonneg).getD true = true)
    (c : ℤ) : 0 ≤ (lineTokens c l).1 ∧ 0 ≤ (lineTokens c l).2 := by
  cases l with
  | none => simp [lineTokens]
  | some r =>
      simp [recNonneg, Bool.and_eq_true] at h
      by_cases hb : tsBefore r.ts c <;>
        simp [lineTokens, hb, recInput, recOutput,
          tokVal_nonneg h.1.1.1 h.1.1.2, tokVal_nonneg h.1.2 h.2]

theorem sum_pairs_nonneg (xs : List (ℤ × ℤ))
    (h : ∀ x ∈ xs, 0 ≤ x.1 ∧ 0 ≤ x.2) : 0 ≤ xs.sum.1 ∧ 0 ≤ xs.sum.2 := by
  induction xs with
  | nil => simp
  | cons x rest ih =>
      have hx := h x (List.mem_cons_self x rest)
      have hr := ih fun y hy => h y (List.mem_cons_of_mem x hy)
      simp only [List.sum_cons, Prod.fst_add, Prod.snd_add]
      exact ⟨add_nonneg hx.1 hr.1, add_nonneg hx.2 hr.2⟩

theorem scanFile_nonneg {f : SFile} (h : fileNonneg f = true) (c : ℤ) :
    0 ≤ (scanFile c f).1 ∧ 0 ≤ (scanFile c f).2 := by
  rw [scanFile]
  split
  · simp
  · refine sum_pairs_nonneg _ ?_
    intro x hx
    simp only [List.mem_map] at hx
    obtain ⟨l, hl, rfl⟩ := hx
    exact lineTokens_nonneg (by simpa [fileNonneg] using List.all_eq_true.mp h l hl) c

theorem scanSessionLogs_nonneg {agents : List AgentDir}
    (h : dataNonneg agents = true) (c : ℤ) :
    0 ≤ (scanSessionLogs agents c).1 ∧ 0 ≤ (scanSessionLogs agents c).2 := by
  rw [scanSessionLogs]
  refine sum_pairs_nonneg _ ?_
  intro x hx
  simp only [List.mem_map] at hx
  obtain ⟨a, ha, rfl⟩ := hx
  have haok := List.all_eq_true.mp h a ha
  rw [agentTokens]
  split
  · refine sum_pairs_nonneg _ ?_
    intro y hy
    simp only [List.mem_map] at hy
    obtain ⟨nf, hnf, rfl⟩ := hy
    have := List.all_eq_true.mp haok nf (List.mem_of_mem_filter hnf)
    exact scanFile_nonneg this c
  · simp

/-- Claim C6 (amended): a token field for a direction that is missing —
neither conventional field name present (or `null`, both nullish for
`??`) — contributes exactly zero to that direction's total; a present
non-numeric field is instead added under JS numeric coercion (a boolean
adds 0 or 1); consequently, whenever every present token field is a
non-negative number, the scan's `inputTokens` and `outputTokens` are
non-negative integers equal to the sums of the token fields of the
included records. -/
theorem scan_token_field_defaults (agents : List AgentDir) (c : ℤ) (r : Rec) :
    (r.input = TField.absent → r.input_tokens = TField.absent → recInput r = 0)
    ∧ (r.output = TField.absent → r.output_tokens = TField.absent → recOutput r = 0)
    ∧ (dataNonneg agents = true →
        0 ≤ (scanSessionLogs agents c).1 ∧ 0 ≤ (scanSessionLogs agents c).2) := by
  refine ⟨?_, ?_, fun h => scanSessionLogs_nonneg h c⟩
  · intro h1 h2
    simp [recInput, h1, h2, tokVal]
  · intro h1 h2
    simp [recOutput, h1, h2, tokVal]

/-- Witness for the amended C6: a record with both input field names
missing contributes zero input tokens. -/
theorem scan_token_field_defaults_witness :
    recInput ⟨TsField.tsNum 0, TField.absent, TField.absent,
        TField.num 9, TField.absent⟩ = 0 :=
  (scan_token_field_defaults [] 0
    ⟨TsField.tsNum 0, TField.absent, TField.absent, TField.num 9, TField.absent⟩).1
    rfl rfl

/-- `Date.now()` readings across the cycles are strictly increasing,
starting after the given last-checkpoint time. -/
def timesInc : ℤ → List (List AgentDir × ℤ) → Bool
  | _, [] => true
  | t, (_, now) :: rest => decide (t < now) && timesInc now rest

theorem runCycles_monotone (steps : List (List AgentDir × ℤ)) :
    ∀ st : TrackerState, steps.all (fun s => dataNonneg s.1) = true →
      timesInc st.lastReportedAt steps = true →
      st.lifetimeInput ≤ (runCycles st steps).lifetimeInput
      ∧ st.lifetimeOutput ≤ (runCycles st steps).lifetimeOutput
      ∧ st.lastReportedAt ≤ (runCycles st steps).lastReportedAt
      ∧ (steps ≠ [] → st.lastReportedAt < (runCycles st steps).lastReportedAt) := by
  induction steps with
  | nil => intro st _ _; simp [runCycles]
  | cons step rest ih =>
      obtain ⟨data, now⟩ := step
      intro st hnn hinc
      simp only [List.all_cons, Bool.and_eq_true] at hnn
      simp only [timesInc, Bool.and_eq_true, decide_eq_true_eq] at hinc
      have hscan : 0 ≤ (scanSessionLogs data (sinceOf st)).1
          ∧ 0 ≤ (scanSessionLogs data (sinceOf st)).2 :=
        scanSessionLogs_nonneg hnn.1 (sinceOf st)
      have hstep := ih (checkpoint st (scanSessionLogs data (sinceOf st)) now)
        hnn.2 (by simpa [checkpoint] using hinc.2)
      simp only [runCycles]
      refine ⟨le_trans ?_ hstep.1, le_trans ?_ hstep.2.1, ?_, fun _ => ?_⟩
      · simp [checkpoint, hscan.1]
      · simp [checkpoint, hscan.2]
      · exact le_trans (le_of_lt hinc.1) (by simpa [checkpoint] using hstep.2.2.1)
      · exact lt_of_lt_of_le hinc.1 (by simpa [checkpoint] using hstep.2.2.1)

/-- Claim C4: the checkpoint step adds the period's tokens to the lifetime
counters and stamps `lastReportedAt` with the invocation time; over every
sequence of scan-then-checkpoint cycles on non-negative records with
strictly increasing invocation times, the lifetime counters never decrease
and `lastReportedAt` strictly increases. -/
theorem checkpoint_spec (st : TrackerState) (tokens : ℤ × ℤ) (now : ℤ)
    (steps : List (List AgentDir × ℤ))
    (hnn : steps.all (fun s => dataNonneg s.1) = true)
    (hinc : timesInc st.lastReportedAt steps = true) :
    (checkpoint st tokens now).lifetimeInput = st.lifetimeInput + tokens.1
    ∧ (checkpoint st tokens now).lifetimeOutput = st.lifetimeOutput + tokens.2
    ∧ (checkpoint st tokens now).lastReportedAt = now
    ∧ st.lifetimeInput ≤ (runCycles st steps).lifetimeInput
    ∧ st.lifetimeOutput ≤ (runCycles st steps).lifetimeOutput
    ∧ (steps ≠ [] → st.lastReportedAt < (runCycles st steps).lastReportedAt) := by
  have h := runCycles_monotone steps st hnn hinc
  exact ⟨rfl, rfl, rfl, h.1, h.2.1, h.2.2.2⟩

/-- Witness for C4: one cycle over an empty record store at time 3
starting from the zero state. -/
theorem checkpoint_spec_witness :
    (⟨0, 0, 0⟩ : TrackerState).lastReportedAt
      < (runCycles ⟨0, 0, 0⟩ [([], 3)]).lastReportedAt :=
  (checkpoint_spec ⟨0, 0, 0⟩ (1, 2) 5 [([], 3)] (by decide) (by decide)).2.2.2.2.2
    (by decide)

/-!
## Non-overlapping aggregation across two sequential scans

The record store is described at both scan instants by a growth structure:
each file has the `mtimeMs` and decoded lines it had at the first scan and
the (appended-to) lines and `mtimeMs` it has at the second; a file created
between the scans appears with empty old lines.
-/

/-- One session-log file at the two scan instants. -/
structure FileGrowth where
  name : String
  mtime1 : ℤ
  mtime2 : ℤ
  oldLines : List (Option Rec)
  newLines : List (Option Rec)
deriving Repr, DecidableEq

/-- One agents-directory entry at the two scan instants. -/
structure AgentGrowth where
  hasSessions : Bool
  files : List FileGrowth
deriving Repr, DecidableEq

/-- The file as the first scan sees it. -/
def fileAt1 (f : FileGrowth) : String × SFile := (f.name, ⟨f.mtime1, f.oldLines⟩)

/-- The file as the second scan sees it: the old lines with the new lines
appended. -/
def fileAt2 (f : FileGrowth) : String × SFile :=
  (f.name, ⟨f.mtime2, f.oldLines ++ f.newLines⟩)

/-- The agents directory as the first scan sees it. -/
def agentsAt1 (g : List AgentGrowth) : List AgentDir :=
  g.map fun a => ⟨a.hasSessions, a.files.map fileAt1⟩

/-- The agents directory as the second scan sees it. -/
def agentsAt2 (g : List AgentGrowth) : List AgentDir :=
  g.map fun a => ⟨a.hasSessions, a.files.map fileAt2⟩

/-- A line present at the first scan is well-timed for boundary `t1`: it is
blank/malformed, or its record has a numeric effective timestamp strictly
before `t1` that also respects both `mtimeMs` values (a file is never
older than the records it contains). -/
def oldLineOk (t1 m1 m2 : ℤ) : Option Rec → Bool
  | none => true
  | some r =>
      match effTs r.ts with
      | none => false
      | some n => decide (n < t1) && decide (n ≤ m1) && decide (n ≤ m2)

/-- A line appended between the scans is well-timed for boundary `t1`: it
is blank/malformed, or its record has a numeric effective timestamp at or
after `t1` and at most the final `mtimeMs`. -/
def newLineOk (t1 m2 : ℤ) : Option Rec → Bool
  | none => true
  | some r =>
      match effTs r.ts with
      | none => false
      | some n => decide (t1 ≤ n) && decide (n ≤ m2)

/-- All lines of the file are well-timed for boundary `t1`. -/
def fileGrowthOk (t1 : ℤ) (f : FileGrowth) : Bool :=
  f.oldLines.all (oldLineOk t1 f.mtime1 f.mtime2)
    && f.newLines.all (newLineOk t1 f.mtime2)

/-- Records have strictly increasing timestamps across the boundary `t1`,
throughout the record store. -/
def growthOk (t1 : ℤ) (g : List AgentGrowth) : Bool :=
  g.all fun a => a.files.all (fileGrowthOk t1)

theorem sumLines_eq_zero {c : ℤ} {ls : List (Option Rec)}
    (h : ∀ r : Rec, some r ∈ ls → tsBefore r.ts c = true) :
    (ls.map (lineTokens c)).sum = 0 := by
  induction ls with
  | nil => simp
  | cons l rest ih =>
      have hr := ih fun r hr => h r (List.mem_cons_of_mem _ hr)
      cases l with
      | none => simp [lineTokens, pair_zero, hr]
      | some r => simp [lineTokens, h r (List.mem_cons_self _ _), pair_zero, hr]

theorem sumLines_congr {c c' : ℤ} {ls : List (Option Rec)}
    (h : ∀ r : Rec, some r ∈ ls → lineTokens c (some r) = lineTokens c' (some r)) :
    (ls.map (lineTokens c)).sum = (ls.map (lineTokens c')).sum := by
  induction ls with
  | nil => simp
  | cons l rest ih =>
      have hr := ih fun r hr => h r (List.mem_cons_of_mem _ hr)
      cases l with
      | none => simp [lineTokens, hr]
      | some r => simp [h r (List.mem_cons_self _ _), hr]

theorem scanFileGrowth (c0 t1 : ℤ) (f : FileGrowth) (hc : c0 ≤ t1)
    (hok : fileGrowthOk t1 f = true) :
    scanFile c0 ⟨f.mtime1, f.oldLines⟩
      + scanFile t1 ⟨f.mtime2, f.oldLines ++ f.newLines⟩
      = scanFile c0 ⟨f.mtime2, f.oldLines ++ f.newLines⟩ := by
  obtain ⟨nm, m1, m2, old, new⟩ := f
  simp only [fileGrowthOk, Bool.and_eq_true, List.all_eq_true] at hok
  have holdP : ∀ r : Rec, some r ∈ old →
      ∃ n, effTs r.ts = some n ∧ n < t1 ∧ n ≤ m1 ∧ n ≤ m2 := by
    intro r hr
    have hx := hok.1 _ hr
    rcases he : effTs r.ts with _ | n <;> simp [oldLineOk, he] at hx
    exact ⟨n, rfl, hx.1.1, hx.1.2, hx.2⟩
  have hnewP : ∀ r : Rec, some r ∈ new →
      ∃ n, effTs r.ts = some n ∧ t1 ≤ n ∧ n ≤ m2 := by
    intro r hr
    have hx := hok.2 _ hr
    rcases he : effTs r.ts with _ | n <;> simp [newLineOk, he] at hx
    exact ⟨n, rfl, hx.1, hx.2⟩
  have hSoldT1 : (old.map (lineTokens t1)).sum = 0 := by
    refine sumLines_eq_zero fun r hr => ?_
    obtain ⟨n, he, h1, _, _⟩ := holdP r hr
    rw [tsBefore_of_effTs he]
    simpa using h1
  by_cases h3 : m2 < c0
  · have h2 : m2 < t1 := lt_of_lt_of_le h3 hc
    have hSoldC0 : (old.map (lineTokens c0)).sum = 0 := by
      refine sumLines_eq_zero fun r hr => ?_
      obtain ⟨n, he, _, _, hm2⟩ := holdP r hr
      rw [tsBefore_of_effTs he]
      simp
      omega
    simp [scanFile, h2, h3, hSoldC0, ite_self]
  · by_cases h2 : m2 < t1
    · have hnonew : ∀ r : Rec, some r ∈ new → False := by
        intro r hr
        obtain ⟨n, _, ha, hb⟩ := hnewP r hr
        omega
      have hSnewC0 : (new.map (lineTokens c0)).sum = 0 :=
        sumLines_eq_zero fun r hr => (hnonew r hr).elim
      by_cases h1 : m1 < c0
      · have hSoldC0 : (old.map (lineTokens c0)).sum = 0 := by
          refine sumLines_eq_zero fun r hr => ?_
          obtain ⟨n, he, _, hm1, _⟩ := holdP r hr
          rw [tsBefore_of_effTs he]
          simp
          omega
        simp [scanFile, h1, h2, h3, List.map_append, List.sum_append,
          hSnewC0, hSoldC0]
      · simp [scanFile, h1, h2, h3, List.map_append, List.sum_append, hSnewC0]
    · have hcongr : (new.map (lineTokens c0)).sum = (new.map (lineTokens t1)).sum := by
        refine sumLines_congr fun r hr => ?_
        obtain ⟨n, he, ha, hb⟩ := hnewP r hr
        simp only [lineTokens, tsBefore_of_effTs he]
        rw [if_neg (by simp; omega), if_neg (by simp; omega)]
      by_cases h1 : m1 < c0
      · have hSoldC0 : (old.map (lineTokens c0)).sum = 0 := by
          refine sumLines_eq_zero fun r hr => ?_
          obtain ⟨n, he, _, hm1, _⟩ := holdP r hr
          rw [tsBefore_of_effTs he]
          simp
          omega
        simp [scanFile, h1, h2, h3, List.map_append, List.sum_append,
          hSoldT1, hSoldC0, hcongr]
      · simp [scanFile, h1, h2, h3, List.map_append, List.sum_append,
          hSoldT1, hcongr]

theorem sum_map_add_of {α : Type} (xs : List α) (f g h : α → ℤ × ℤ)
    (H : ∀ x ∈ xs, f x + g x = h x) :
    (xs.map f).sum + (xs.map g).sum = (xs.map h).sum := by
  induction xs with
  | nil => simp
  | cons x rest ih =>
      have hx := H x (List.mem_cons_self _ _)
      have hr := ih fun y hy => H y (List.mem_cons_of_mem _ hy)
      simp only [List.map_cons, List.sum_cons]
      rw [← hx, ← hr]
      abel

theorem agentGrowthTokens (c0 t1 : ℤ) (a : AgentGrowth) (hc : c0 ≤ t1)
    (hok : a.files.all (fileGrowthOk t1) = true) :
    agentTokens c0 ⟨a.hasSessions, a.files.map fileAt1⟩
      + agentTokens t1 ⟨a.hasSessions, a.files.map fileAt2⟩
      = agentTokens c0 ⟨a.hasSessions, a.files.map fileAt2⟩ := by
  cases hs : a.hasSessions
  · simp [agentTokens]
  · simp only [agentTokens, if_true, List.filter_map, List.map_map]
    simp only [Function.comp_def, fileAt1, fileAt2]
    exact sum_map_add_of _ _ _ _ fun f hf =>
      scanFileGrowth c0 t1 f hc
        (List.all_eq_true.mp hok f (List.mem_of_mem_filter hf))

/-- Claim C1: when the second scan's cutoff `t1` is the checkpoint
timestamp recorded after the first scan (at cutoff `c0 ≤ t1`), and records
have strictly increasing timestamps across the boundary — every record
present at the first scan timed strictly before `t1`, every record
appended afterwards timed at or after `t1`, and no file older than its
records — the componentwise sum of the two scans' token counts equals the
token counts of one scan of the final store over the full window: nothing
is counted twice and nothing is missed. -/
theorem scan_non_overlap (c0 t1 : ℤ) (g : List AgentGrowth)
    (hc : c0 ≤ t1) (hok : growthOk t1 g = true) :
    scanSessionLogs (agentsAt1 g) c0 + scanSessionLogs (agentsAt2 g) t1
      = scanSessionLogs (agentsAt2 g) c0 := by
  simp only [scanSessionLogs, agentsAt1, agentsAt2, List.map_map,
    Function.comp_def]
  rw [growthOk] at hok
  exact sum_map_add_of _ _ _ _ fun a ha =>
    agentGrowthTokens c0 t1 a hc (List.all_eq_true.mp hok a ha)

/-- Witness for C1: one agent, one file scanned at cutoff 0, checkpointed
at 10, re-scanned at cutoff 10 after a record arrived at time 20. -/
theorem scan_non_overlap_witness :
    scanSessionLogs
        (agentsAt1 [⟨true, [⟨"a.jsonl", 10, 25,
          [some ⟨TsField.tsNum 5, TField.num 3, TField.absent, TField.num 4, TField.absent⟩],
          [some ⟨TsField.tsNum 20, TField.num 5, TField.absent, TField.num 6, TField.absent⟩]⟩]⟩]) 0
      + scanSessionLogs
        (agentsAt2 [⟨true, [⟨"a.jsonl", 10, 25,
          [some ⟨TsField.tsNum 5, TField.num 3, TField.absent, TField.num 4, TField.absent⟩],
          [some ⟨TsField.tsNum 20, TField.num 5, TField.absent, TField.num 6, TField.absent⟩]⟩]⟩]) 10
      = scanSessionLogs
        (agentsAt2 [⟨true, [⟨"a.jsonl", 10, 25,
          [some ⟨TsField.tsNum 5, TField.num 3, TField.absent, TField.num 4, TField.absent⟩],
          [some ⟨TsField.tsNum 20, TField.num 5, TField.absent, TField.num 6, TField.absent⟩]⟩]⟩]) 0 :=
  scan_non_overlap 0 10 _ (by decide) (by decide)

/-!
## Backup-before-write
-/

theorem bak_path_ne (cfgPath : String) (now : ℤ) :
    cfgPath ++ ".bak." ++ toString now ≠ cfgPath := by
  intro h
  have hlen := congrArg String.length h
  have h5 : (".bak." : String).length = 5 := rfl
  rw [String.length_append, String.length_append, h5] at hlen
  omega

/-- Claim C3: running the config merge against a file system that holds a
configuration file at `cfgPath` creates exactly one new file — the backup
at `cfgPath ++ ".bak." ++ <now>` — whose content is the pre-merge content
of the original (so the copy happened before the merged document
overwrote it); every other path is untouched, and `cfgPath` now holds the
rendered merged document.  When no configuration file existed, no backup
(and no other file) is created: only `cfgPath` is written. -/
theorem patchOpenClawConfig_backup
    (parse : String → Option (List (String × JVal)))
    (render : List (String × JVal) → String)
    (cfgPath apiKey : String) (modelEntry : JVal) (now : ℤ) (fs : FS) :
    (∀ c, getFile fs cfgPath = some c →
      getFile (patchOpenClawConfig parse render cfgPath apiKey modelEntry now fs)
          (cfgPath ++ ".bak." ++ toString now) = some c)
    ∧ (getFile fs cfgPath = none → ∀ p, p ≠ cfgPath →
      getFile (patchOpenClawConfig parse render cfgPath apiKey modelEntry now fs) p
        = getFile fs p)
    ∧ (∀ p, p ≠ cfgPath → p ≠ cfgPath ++ ".bak." ++ toString now →
      getFile (patchOpenClawConfig parse render cfgPath apiKey modelEntry now fs) p
        = getFile fs p)
    ∧ getFile (patchOpenClawConfig parse render cfgPath apiKey modelEntry now fs)
          cfgPath
        = some (render (deepMerge (((getFile fs cfgPath).bind parse).getD [])
            (sansaPatch apiKey modelEntry)) ++ "\n") := by
  rcases hcfg : getFile fs cfgPath with _ | c₀
  · refine ⟨?_, ?_, ?_, ?_⟩
    · intro c hc
      simp at hc
    · intro _ p hp
      simp only [patchOpenClawConfig, hcfg]
      exact getKey_setKey_ne fs cfgPath p _ hp
    · intro p hp _
      simp only [patchOpenClawConfig, hcfg]
      exact getKey_setKey_ne fs cfgPath p _ hp
    · simp only [patchOpenClawConfig, hcfg]
      exact getKey_setKey_self fs cfgPath _
  · refine ⟨?_, ?_, ?_, ?_⟩
    · intro c hc
      obtain rfl : c₀ = c := Option.some_inj.mp hc
      simp only [patchOpenClawConfig, hcfg]
      rw [getFile, setFile, getKey_setKey_ne _ _ _ _ (bak_path_ne cfgPath now)]
      exact getKey_setKey_self fs _ _
    · intro hnone
      simp at hnone
    · intro p hp hbak
      simp only [patchOpenClawConfig, hcfg]
      rw [getFile, setFile, getKey_setKey_ne _ _ _ _ hp]
      exact getKey_setKey_ne fs _ p _ hbak
    · simp only [patchOpenClawConfig, hcfg]
      exact getKey_setKey_self _ cfgPath _

/-- Witness for C3: with an existing config file containing "old", the
backup file holds "old" after the patch. -/
theorem patchOpenClawConfig_backup_witness :
    getFile (patchOpenClawConfig (fun _ => none) (fun _ => "MERGED")
        "cfg" "key" JVal.null 7 [("cfg", "old")])
      ("cfg" ++ ".bak." ++ toString (7 : ℤ)) = some "old" :=
  (patchOpenClawConfig_backup (fun _ => none) (fun _ => "MERGED")
    "cfg" "key" JVal.null 7 [("cfg", "old")]).1 "old" rfl

end OpenClaw
